import Mathlib

/-!
Shallow embedding of `convert-swete.py`: the `SweteLXX` SAX content handler
that turns Swete LXX TEI markup events into a flat token stream.

Strings are modelled as Lean `String`s (sequences of Unicode code points,
matching Python's `str` indexing and slicing by code point).  The two
external collaborators (`koinenlp.remove_punctuation` and
`unicodedata.normalize('NFC', -)`) are not part of this repository; they are
modelled from the spec as an abstract pair of pure functions (`Prims`).
-/

namespace Swete

/-- Python `s.replace(a, b)` for one-character pattern `a` and one-character
replacement `b`: every occurrence of `a` is replaced by `b`. -/
def pyReplace1 (s : String) (a b : Char) : String :=
  ⟨s.data.map (fun c => if c = a then b else c)⟩

/-- Python `s.replace(a, "")` for a one-character pattern `a`: every
occurrence of `a` is removed. -/
def pyDelete (s : String) (a : Char) : String :=
  ⟨s.data.filter (fun c => c ≠ a)⟩

/-- Python `s[a:b]` for `0 ≤ a ≤ b`: the code points at positions
`a, …, b-1`, truncated (never failing) when `s` is shorter. -/
def pySlice (s : String) (a b : Nat) : String :=
  ⟨(s.data.drop a).take (b - a)⟩

/-- Python `s.split()` with no argument: split on whitespace runs and
discard empty pieces (ASCII whitespace; the corpus uses no exotic spaces). -/
def pySplit (s : String) : List String :=
  ((s.data.splitOnP Char.isWhitespace).map String.mk).filter (fun t => t ≠ "")

/-- Python `s.strip()` with no argument: remove leading and trailing
whitespace. -/
def pyStrip (s : String) : String :=
  ⟨((s.data.dropWhile Char.isWhitespace).reverse.dropWhile
      Char.isWhitespace).reverse⟩

/-- Python `s[:-1]`: the string without its final code point. -/
def strDropLast (s : String) : String := ⟨s.data.dropLast⟩

/-- The final code point of a string, if any (Python `s[-1]`). -/
def strLast (s : String) : Option Char := s.data.getLast?

/-- Python `s[-1]` as a one-character string; the source only evaluates it
on non-empty tokens, on `""` this total model returns `""`. -/
def strLastStr (s : String) : String :=
  match s.data.getLast? with
  | some c => String.mk [c]
  | none => ""

/-- Numeric value of a decimal digit string. -/
def digitsVal (l : List Char) : Nat :=
  l.foldl (fun n c => 10 * n + (c.toNat - 48)) 0

/-- Python `int(s)` on a string: optional surrounding whitespace, optional
sign, then a non-empty run of decimal digits; `none` models the
`ValueError` raised on anything else (such as the empty string). -/
def pyInt (s : String) : Option Int :=
  match (pyStrip s).data with
  | '+' :: rest =>
      if rest ≠ [] ∧ rest.all Char.isDigit then some (digitsVal rest) else none
  | '-' :: rest =>
      if rest ≠ [] ∧ rest.all Char.isDigit then some (-(digitsVal rest : Int)) else none
  | l =>
      if l ≠ [] ∧ l.all Char.isDigit then some (digitsVal l) else none

/-- `FILTER_CHARS = ["¶", "[", "]", "§"]` from the source; each entry is a
single character, so the list is embedded as characters. -/
def FILTER_CHARS : List Char := ['¶', '[', ']', '§']

/-- GREEK ANO TELEIA, the first argument of the shim `replace` call. -/
def anoTeleia : Char := '·'

/-- MIDDLE DOT, the second argument of the shim `replace` call. -/
def middleDot : Char := '·'

/-- `OUTLINE = "{0}.{1}.{2} {3}\n"` applied to its four arguments
(`str.format` renders each argument with `str`). -/
def OUTLINE (book chapter verse token : String) : String :=
  book ++ "." ++ chapter ++ "." ++ verse ++ " " ++ token ++ "\n"

/-- Modelled from the spec: the two external collaborators that are not part
of this repository.  `removePunctuation` is `koinenlp.remove_punctuation`
(returns its input with punctuation characters removed); `normalizeNFC` is
`unicodedata.normalize('NFC', -)` (canonical composed form).  Both are pure
total functions on strings. -/
structure Prims where
  removePunctuation : String → String
  normalizeNFC : String → String

/-- Sample punctuation classification used only to evaluate the theorems on
concrete inputs. -/
def samplePunct (c : Char) : Bool :=
  c == '.' || c == ',' || c == ';' || c == '·'

/-- Sample instantiation of the external primitives for concrete evaluation:
punctuation removal over `samplePunct`, and the identity for NFC (exact on
the already-composed literals used below). -/
def samplePrims : Prims where
  removePunctuation s := ⟨s.data.filter (fun c => !(samplePunct c))⟩
  normalizeNFC s := s

/-- The mutable fields of the `SweteLXX` handler instance.  `current_chapter`
and `current_verse` are initialised to the integer `0` in the source and
thereafter only ever hold attribute strings; since they are only observed
through `str.format`, they are embedded as strings initialised to `"0"`. -/
structure SweteLXX where
  out_lines : List String
  in_book : Bool
  in_header : Bool
  in_idno : Bool
  in_note : Bool
  in_title : Bool
  in_titlestmt : Bool
  note_depth : Int
  task : String
  lb_token : Option String
  current_chapter : String
  current_verse : String
  current_book : Int
  book_title : Option String
deriving Repr, DecidableEq

/-- `SweteLXX.__init__` (the `outfile` flag plays no part in parsing and is
omitted). -/
def SweteLXX.init (task : String) : SweteLXX where
  out_lines := []
  in_book := false
  in_header := false
  in_idno := false
  in_note := false
  in_title := false
  in_titlestmt := false
  note_depth := 0
  task := task
  lb_token := none
  current_chapter := "0"
  current_verse := "0"
  current_book := 0
  book_title := none

/-- The exceptions the handler can raise: `malformedIdentifier` is the
`ValueError` escaping `int(data[11:14])` (the spec's
`MalformedIdentifierError`); `keyError` is `attrs.getValue` on a missing
attribute. -/
inductive PyError where
  | malformedIdentifier
  | keyError
deriving Repr, DecidableEq

/-- SAX `attrs.getNames()` over an attribute association list. -/
def getNames (attrs : List (String × String)) : List String :=
  attrs.map (fun p => p.1)

/-- SAX `attrs.getValue(k)` as an option (`none` models the `KeyError`). -/
def getValue? (attrs : List (String × String)) (k : String) : Option String :=
  (attrs.find? (fun p => p.1 = k)).map (fun p => p.2)

/-- `SweteLXX.startElement`. -/
def SweteLXX.startElement (st : SweteLXX) (name : String)
    (attrs : List (String × String)) : Except PyError SweteLXX :=
  if name = "div" ∧ "subtype" ∈ getNames attrs ∧
      getValue? attrs "subtype" = some "chapter" then
    match getValue? attrs "n" with
    | some n => .ok { st with current_chapter := n }
    | none => .error .keyError
  else if name = "div" ∧ "subtype" ∈ getNames attrs ∧
      getValue? attrs "subtype" = some "verse" then
    match getValue? attrs "n" with
    | some n => .ok { st with current_verse := n }
    | none => .error .keyError
  else if name = "text" then .ok { st with in_book := true }
  else if name = "head" then .ok { st with in_header := true }
  else if name = "idno" then .ok { st with in_idno := true }
  else if name = "titleStmt" then .ok { st with in_titlestmt := true }
  else if name = "title" then .ok { st with in_title := true }
  else if name = "note" then
    .ok { st with note_depth := st.note_depth + 1, in_note := true }
  else .ok st

/-- The punctuation-split and emission part of the token loop in
`SweteLXX.characters` (from the `# Handle punctuation` comment down):
`token` has already passed the metacharacter filter, the non-empty check
and the ano-teleia shim. -/
def SweteLXX.emitNormalized (P : Prims) (st : SweteLXX) (token : String) :
    SweteLXX :=
  let pr : String × Option String :=
    if P.removePunctuation token = strDropLast token then
      (strDropLast token, some (strLastStr token))
    else (token, none)
  if st.task = "compare" then
    let st1 := { st with out_lines := st.out_lines ++ [P.normalizeNFC pr.1] }
    match pr.2 with
    | some p => if p ≠ "" then { st1 with out_lines := st1.out_lines ++ [p] } else st1
    | none => st1
  else if st.task = "convert" then
    { st with out_lines := st.out_lines ++
        [OUTLINE (toString st.current_book) st.current_chapter
          st.current_verse (P.normalizeNFC token)] }
  else st

/-- The filter/emit part of the token loop in `SweteLXX.characters`: strip
the `FILTER_CHARS`, drop the token if it became empty, apply the ano-teleia
shim, then split and emit. -/
def SweteLXX.emitToken (P : Prims) (st : SweteLXX) (token0 : String) :
    SweteLXX :=
  let token := FILTER_CHARS.foldl pyDelete token0
  if token.length < 1 then st
  else SweteLXX.emitNormalized P st (pyReplace1 token anoTeleia middleDot)

/-- One iteration of the token loop in `SweteLXX.characters`: the trailing
hyphen check stores the fragment (Python `continue`), otherwise a truthy
pending `lb_token` is prepended and cleared before the filter/emit stage. -/
def SweteLXX.processToken (P : Prims) (st : SweteLXX) (token : String) :
    SweteLXX :=
  if strLast token = some '-' then
    { st with lb_token := some (strDropLast token) }
  else
    match st.lb_token with
    | some lb =>
        if lb ≠ "" then
          SweteLXX.emitToken P { st with lb_token := none } (lb ++ token)
        else
          SweteLXX.emitToken P st token
    | none => SweteLXX.emitToken P st token

/-- First section of `SweteLXX.characters` (`# Obtain the numerical book
ID`): inside `idno`, `self.current_book = int(data[11:14])`, whose
`ValueError` propagates as `malformedIdentifier`. -/
def SweteLXX.charIdno (st : SweteLXX) (data : String) :
    Except PyError SweteLXX :=
  if st.in_idno then
    match pyInt (pySlice data 11 14) with
    | some n => .ok { st with current_book := n }
    | none => .error .malformedIdentifier
  else .ok st

/-- Second section of `SweteLXX.characters` (`# Obtain the book name`). -/
def SweteLXX.charTitle (st : SweteLXX) (data : String) : SweteLXX :=
  if st.in_titlestmt && st.in_title then { st with book_title := some data }
  else st

/-- Third section of `SweteLXX.characters` (`# If in the book not in a
header, and not in a note`): the token loop over the whitespace-split run. -/
def SweteLXX.charBody (P : Prims) (st : SweteLXX) (data : String) : SweteLXX :=
  if st.in_book && !st.in_note && !st.in_header then
    (pySplit data).foldl (SweteLXX.processToken P) st
  else st

/-- `SweteLXX.characters`: the three sections in source order. -/
def SweteLXX.characters (P : Prims) (st : SweteLXX) (data : String) :
    Except PyError SweteLXX :=
  match SweteLXX.charIdno st data with
  | .error e => .error e
  | .ok st1 => .ok (SweteLXX.charBody P (SweteLXX.charTitle st1 data) data)

/-- `SweteLXX.endElement`. -/
def SweteLXX.endElement (st : SweteLXX) (name : String) : SweteLXX :=
  if name = "text" then { st with in_book := false }
  else if name = "head" then { st with in_header := false }
  else if name = "idno" then { st with in_idno := false }
  else if name = "titleStmt" then { st with in_titlestmt := false }
  else if name = "title" then { st with in_title := false }
  else if name = "note" then
    let d := st.note_depth - 1
    { st with note_depth := d, in_note := if d < 1 then false else st.in_note }
  else st

/-- A SAX markup event as delivered to the handler. -/
inductive Event where
  | start (name : String) (attrs : List (String × String))
  | chars (data : String)
  | close (name : String)
deriving Repr, DecidableEq

/-- Dispatch one event to the corresponding handler method. -/
def step (P : Prims) (st : SweteLXX) : Event → Except PyError SweteLXX
  | .start name attrs => st.startElement name attrs
  | .chars data => SweteLXX.characters P st data
  | .close name => .ok (st.endElement name)

/-- Run the handler over an event list; an exception raised by any handler
propagates and aborts the rest of the parse. -/
def run (P : Prims) (st : SweteLXX) : List Event → Except PyError SweteLXX
  | [] => .ok st
  | e :: es =>
    match step P st e with
    | .ok st' => run P st' es
    | .error err => .error err

/-- Events that open a `note` element. -/
def isNoteOpen : Event → Bool
  | .start name _ => name = "note"
  | _ => false

/-- Events that close a `note` element. -/
def isNoteClose : Event → Bool
  | .close name => name = "note"
  | _ => false

/-- The buffer entries a single call of the punctuation-split/emit stage
appends, as a function of the context fields it reads. -/
def emitEntries (P : Prims) (task book chapter verse token : String) :
    List String :=
  let pr : String × Option String :=
    if P.removePunctuation token = strDropLast token then
      (strDropLast token, some (strLastStr token))
    else (token, none)
  if task = "compare" then
    [P.normalizeNFC pr.1] ++
      (match pr.2 with
       | some p => if p ≠ "" then [p] else []
       | none => [])
  else if task = "convert" then
    [OUTLINE book chapter verse (P.normalizeNFC token)]
  else []

/-- The state with entries appended to the output buffer. -/
def withOut (st : SweteLXX) (E : List String) : SweteLXX :=
  { st with out_lines := st.out_lines ++ E }

lemma emitNormalized_eq (P : Prims) (st : SweteLXX) (t : String) :
    SweteLXX.emitNormalized P st t =
      withOut st (emitEntries P st.task (toString st.current_book)
        st.current_chapter st.current_verse t) := by
  by_cases h1 : P.removePunctuation t = strDropLast t <;>
    by_cases h2 : st.task = "compare" <;>
      by_cases h3 : st.task = "convert" <;>
        simp_all [SweteLXX.emitNormalized, emitEntries, withOut] <;>
          split <;> simp [List.append_assoc]

/-- The buffer entries one token of the loop contributes after the
metacharacter filter, the emptiness check and the ano-teleia shim. -/
def tokenEntries (P : Prims) (task book chapter verse token0 : String) :
    List String :=
  let token := FILTER_CHARS.foldl pyDelete token0
  if token.length < 1 then []
  else emitEntries P task book chapter verse
    (pyReplace1 token anoTeleia middleDot)

lemma emitToken_eq (P : Prims) (st : SweteLXX) (t0 : String) :
    SweteLXX.emitToken P st t0 =
      withOut st (tokenEntries P st.task (toString st.current_book)
        st.current_chapter st.current_verse t0) := by
  unfold SweteLXX.emitToken tokenEntries
  by_cases h : (FILTER_CHARS.foldl pyDelete t0).length < 1 <;>
    simp [h, withOut, emitNormalized_eq]

lemma run_append (P : Prims) (st : SweteLXX) (es1 es2 : List Event) :
    run P st (es1 ++ es2) =
      match run P st es1 with
      | .ok st' => run P st' es2
      | .error e => .error e := by
  induction es1 generalizing st with
  | nil => rfl
  | cons e es1 ih =>
    simp only [List.cons_append, run]
    cases step P st e with
    | ok st' => exact ih st'
    | error err => rfl

lemma processToken_note (P : Prims) (st : SweteLXX) (t : String) :
    (SweteLXX.processToken P st t).note_depth = st.note_depth ∧
      (SweteLXX.processToken P st t).in_note = st.in_note := by
  unfold SweteLXX.processToken
  split
  · exact ⟨rfl, rfl⟩
  · split
    · split <;> simp [emitToken_eq, withOut]
    · simp [emitToken_eq, withOut]

lemma foldl_processToken_note (P : Prims) (ts : List String) (st : SweteLXX) :
    ((ts.foldl (SweteLXX.processToken P) st).note_depth = st.note_depth) ∧
      ((ts.foldl (SweteLXX.processToken P) st).in_note = st.in_note) := by
  induction ts generalizing st with
  | nil => exact ⟨rfl, rfl⟩
  | cons t ts ih =>
    simp only [List.foldl_cons]
    obtain ⟨h1, h2⟩ := ih (SweteLXX.processToken P st t)
    obtain ⟨h3, h4⟩ := processToken_note P st t
    exact ⟨h1.trans h3, h2.trans h4⟩

lemma charIdno_note (st : SweteLXX) (d : String) (st' : SweteLXX)
    (h : SweteLXX.charIdno st d = .ok st') :
    st'.note_depth = st.note_depth ∧ st'.in_note = st.in_note := by
  unfold SweteLXX.charIdno at h
  split at h
  · split at h
    · injection h with h; subst h; exact ⟨rfl, rfl⟩
    · exact Except.noConfusion h
  · injection h with h; subst h; exact ⟨rfl, rfl⟩

lemma charTitle_note (st : SweteLXX) (d : String) :
    (SweteLXX.charTitle st d).note_depth = st.note_depth ∧
      (SweteLXX.charTitle st d).in_note = st.in_note := by
  unfold SweteLXX.charTitle
  split <;> exact ⟨rfl, rfl⟩

lemma charBody_note (P : Prims) (st : SweteLXX) (d : String) :
    (SweteLXX.charBody P st d).note_depth = st.note_depth ∧
      (SweteLXX.charBody P st d).in_note = st.in_note := by
  unfold SweteLXX.charBody
  split
  · exact foldl_processToken_note P (pySplit d) st
  · exact ⟨rfl, rfl⟩

lemma characters_note (P : Prims) (st : SweteLXX) (d : String) (st' : SweteLXX)
    (h : SweteLXX.characters P st d = .ok st') :
    st'.note_depth = st.note_depth ∧ st'.in_note = st.in_note := by
  unfold SweteLXX.characters at h
  split at h
  · exact Except.noConfusion h
  next st1 heq =>
    injection h with h
    subst h
    obtain ⟨a1, a2⟩ := charIdno_note st d st1 heq
    obtain ⟨b1, b2⟩ := charTitle_note st1 d
    obtain ⟨c1, c2⟩ := charBody_note P (SweteLXX.charTitle st1 d) d
    exact ⟨c1.trans (b1.trans a1), c2.trans (b2.trans a2)⟩

lemma startElement_note_eq (st : SweteLXX) (attrs : List (String × String)) :
    st.startElement "note" attrs =
      .ok { st with note_depth := st.note_depth + 1, in_note := true } := rfl

lemma startElement_other (st : SweteLXX) (name : String)
    (attrs : List (String × String)) (st' : SweteLXX)
    (hn : name ≠ "note") (h : st.startElement name attrs = .ok st') :
    st'.note_depth = st.note_depth ∧ st'.in_note = st.in_note := by
  unfold SweteLXX.startElement at h
  split_ifs at h with h1 h2 h3 h4 h5 h6 h7
  · split at h
    · injection h with h; subst h; exact ⟨rfl, rfl⟩
    · exact Except.noConfusion h
  · split at h
    · injection h with h; subst h; exact ⟨rfl, rfl⟩
    · exact Except.noConfusion h
  · injection h with h; subst h; exact ⟨rfl, rfl⟩
  · injection h with h; subst h; exact ⟨rfl, rfl⟩
  · injection h with h; subst h; exact ⟨rfl, rfl⟩
  · injection h with h; subst h; exact ⟨rfl, rfl⟩
  · injection h with h; subst h; exact ⟨rfl, rfl⟩
  · injection h with h; subst h; exact ⟨rfl, rfl⟩

lemma endElement_note_eq (st : SweteLXX) :
    st.endElement "note" =
      { st with
          note_depth := st.note_depth - 1,
          in_note := if st.note_depth - 1 < 1 then false else st.in_note } := rfl

lemma endElement_other (st : SweteLXX) (name : String) (hn : name ≠ "note") :
    (st.endElement name).note_depth = st.note_depth ∧
      (st.endElement name).in_note = st.in_note := by
  unfold SweteLXX.endElement
  split_ifs with h1 h2 h3 h4 h5
  · exact ⟨rfl, rfl⟩
  · exact ⟨rfl, rfl⟩
  · exact ⟨rfl, rfl⟩
  · exact ⟨rfl, rfl⟩
  · exact ⟨rfl, rfl⟩
  · exact ⟨rfl, rfl⟩

lemma note_aux (P : Prims) (task : String) :
    ∀ (es : List Event) (st : SweteLXX),
      run P (SweteLXX.init task) es = .ok st →
      (∀ n, ((es.take n).countP isNoteClose) ≤ ((es.take n).countP isNoteOpen)) →
      st.note_depth = ((es.countP isNoteOpen : Int) - (es.countP isNoteClose)) ∧
        (st.in_note = true ↔ 1 ≤ st.note_depth) := by
  intro es
  induction es using List.reverseRecOn with
  | nil =>
    intro st h _
    injection h with h
    subst h
    simp [SweteLXX.init]
  | append_singleton es e ih =>
    intro st h hbal
    rw [run_append] at h
    cases hr : run P (SweteLXX.init task) es with
    | error err => rw [hr] at h; exact Except.noConfusion h
    | ok st1 =>
      rw [hr] at h
      have hbal1 : ∀ n, ((es.take n).countP isNoteClose) ≤
          ((es.take n).countP isNoteOpen) := by
        intro n
        rcases le_or_lt n es.length with hn | hn
        · have h2 := hbal n
          rwa [List.take_append_of_le_length hn] at h2
        · have h2 := hbal es.length
          rw [List.take_append_of_le_length le_rfl, List.take_length] at h2
          rwa [List.take_of_length_le (le_of_lt hn)]
      have hbalFull : (es.countP isNoteClose) ≤ (es.countP isNoteOpen) := by
        have h2 := hbal1 es.length
        rwa [List.take_length] at h2
      obtain ⟨hd, hin⟩ := ih st1 hr hbal1
      have hdep0 : (0 : Int) ≤ st1.note_depth := by
        rw [hd]; omega
      cases e with
      | chars d =>
        simp only [run, step] at h
        cases hc : SweteLXX.characters P st1 d with
        | error err => rw [hc] at h; exact Except.noConfusion h
        | ok st2 =>
          rw [hc] at h
          injection h with h
          subst h
          obtain ⟨e1, e2⟩ := characters_note P st1 d st2 hc
          constructor
          · rw [e1, hd]
            simp [List.countP_append, isNoteOpen, isNoteClose]
          · rw [e1, e2]; exact hin
      | start name attrs =>
        simp only [run, step] at h
        by_cases hname : name = "note"
        · subst hname
          rw [startElement_note_eq] at h
          injection h with h
          subst h
          constructor
          · simp only [List.countP_append, hd]
            simp [isNoteOpen, isNoteClose]
            omega
          · simp only
            constructor
            · intro _; omega
            · intro _; trivial
        · cases hs : st1.startElement name attrs with
          | error err => rw [hs] at h; exact Except.noConfusion h
          | ok st2 =>
            rw [hs] at h
            injection h with h
            subst h
            obtain ⟨e1, e2⟩ := startElement_other st1 name attrs st2 hname hs
            constructor
            · rw [e1, hd]
              simp [List.countP_append, isNoteOpen, isNoteClose, hname]
            · rw [e1, e2]; exact hin
      | close name =>
        simp only [run, step] at h
        injection h with h
        subst h
        by_cases hname : name = "note"
        · subst hname
          rw [endElement_note_eq]
          constructor
          · simp only [List.countP_append, hd]
            simp [isNoteOpen, isNoteClose]
            omega
          · simp only
            split
            · simp only [Bool.false_eq_true, false_iff]
              omega
            · rw [hin]
              constructor <;> intro <;> omega
        · obtain ⟨e1, e2⟩ := endElement_other st1 name hname
          constructor
          · rw [e1, hd]
            simp [List.countP_append, isNoteOpen, isNoteClose, hname]
          · rw [e1, e2]; exact hin

lemma foldl_pyDelete (l : List Char) (t : String) :
    l.foldl pyDelete t = ⟨t.data.filter (fun c => decide (c ∉ l))⟩ := by
  induction l generalizing t with
  | nil =>
    show t = _
    apply String.ext
    simp
  | cons a l ih =>
    simp only [List.foldl_cons, ih]
    apply String.ext
    show (t.data.filter (fun c => decide (c ≠ a))).filter (fun c => decide (c ∉ l)) = _
    rw [List.filter_filter]
    apply List.filter_congr
    intro x _
    by_cases hx1 : x = a <;> by_cases hx2 : x ∈ l <;> simp [hx1, hx2]

lemma count_map_shim (l : List Char) :
    (l.map (fun c => if c = anoTeleia then middleDot else c)).count middleDot
      = l.count middleDot + l.count anoTeleia := by
  induction l with
  | nil => rfl
  | cons c l ih =>
    have hdistinct : anoTeleia ≠ middleDot := by decide
    by_cases h1 : c = anoTeleia <;> by_cases h2 : c = middleDot <;>
      simp_all [List.count_cons] <;> omega

/-- Claim C2 counterexample: a 13-character identifier run (shorter than the
fixed offset-plus-width 14) whose positions after offset 11 are the digits
`27` does NOT fail: processing succeeds and silently assigns the truncated
book number 27, so the claimed failure on every too-short run is false. -/
theorem c2_counterexample :
    ("xxxxxxxxxxx27".length = 13)
    ∧ ((run samplePrims (SweteLXX.init "convert")
          [Event.start "idno" [], Event.chars "xxxxxxxxxxx27"]).map
        SweteLXX.current_book = .ok 27) := ⟨rfl, rfl⟩

/-- Claim C2 (amended): while inside the identifier field, processing fails
with `malformedIdentifier` exactly when Python `int` of the slice
`data[11:14]` fails (in particular when the slice is empty, i.e. the run has
at most 11 characters, or is non-numeric); the error propagates through the
rest of the event stream and aborts the run, so no output is produced.  A
run of length 12 or 13 whose tail positions are digits instead silently
assigns a truncated book number. -/
theorem c2_short_idno_fails (P : Prims) (task : String) (es1 es2 : List Event)
    (data : String) (st : SweteLXX)
    (h1 : run P (SweteLXX.init task) es1 = .ok st)
    (h2 : st.in_idno = true)
    (h3 : pyInt (pySlice data 11 14) = none) :
    run P (SweteLXX.init task) (es1 ++ Event.chars data :: es2)
      = .error PyError.malformedIdentifier := by
  rw [run_append, h1]
  show run P st (Event.chars data :: es2) = _
  simp only [run, step, SweteLXX.characters, SweteLXX.charIdno, h2, h3,
    if_true]

/-- Witness for C2 (amended) at a concrete too-short identifier run. -/
theorem c2_short_idno_fails_witness :
    run samplePrims (SweteLXX.init "convert")
        ([Event.start "idno" []] ++ Event.chars "short" :: [Event.chars "x"])
      = .error PyError.malformedIdentifier :=
  c2_short_idno_fails samplePrims "convert" [Event.start "idno" []]
    [Event.chars "x"] "short" { SweteLXX.init "convert" with in_idno := true }
    rfl rfl rfl

/-- Claim C3 counterexample: after the in-scope raw tokens `ab-` then `cd-`,
the pending fragment from `ab-` has NOT been prepended to the very next raw
token: the pending slot holds `cd` (the `ab` fragment was silently
discarded), and with a following token `e` the emitted token is `cde`, not a
reassembly containing `ab`. -/
theorem c3_counterexample :
    ((run samplePrims (SweteLXX.init "convert")
          [Event.start "text" [], Event.chars "ab- cd-"]).map
        SweteLXX.lb_token = .ok (some "cd"))
    ∧ ((run samplePrims (SweteLXX.init "convert")
          [Event.start "text" [], Event.chars "ab- cd- e"]).map
        SweteLXX.out_lines = .ok ["0.0.0 cde\n"]) := ⟨rfl, rfl⟩

/-- Claim C3 (amended): at most one pending fragment exists (a single
optional slot).  A raw token that itself ends in a hyphen does not consume a
pending fragment: it overwrites the slot with its own hyphen-stripped text,
discarding any previous fragment.  A pending non-empty fragment is consumed
— prepended and the slot cleared — by the next raw token that does not end
in a hyphen. -/
theorem c3_pending_fragment (P : Prims) (st : SweteLXX) (t : String) :
    (strLast t = some '-' →
        SweteLXX.processToken P st t = { st with lb_token := some (strDropLast t) })
    ∧ (∀ s, strLast t ≠ some '-' → st.lb_token = some s → s ≠ "" →
        SweteLXX.processToken P st t
          = SweteLXX.emitToken P { st with lb_token := none } (s ++ t)) := by
  constructor
  · intro h
    unfold SweteLXX.processToken
    rw [if_pos h]
  · intro s hnh hlb hs
    unfold SweteLXX.processToken
    rw [if_neg hnh, hlb]
    simp only [hs, ne_eq, not_false_iff, if_true]

/-- Witness for C3 (amended): a hyphen-ending token overwrites a pending
fragment. -/
theorem c3_pending_fragment_witness :
    SweteLXX.processToken samplePrims
        { SweteLXX.init "compare" with lb_token := some "xy" } "ab-"
      = { { SweteLXX.init "compare" with lb_token := some "xy" } with
            lb_token := some (strDropLast "ab-") } :=
  (c3_pending_fragment samplePrims
    { SweteLXX.init "compare" with lb_token := some "xy" } "ab-").1 (by decide)

/-- A concrete well-nested note scenario: two nested notes; body tokens
between the first open and the second close are suppressed, and the token
after the second close is emitted. -/
def c4Events : List Event :=
  [Event.start "text" [], Event.start "note" [], Event.chars "b",
   Event.start "note" [], Event.chars "c", Event.close "note",
   Event.chars "c2", Event.close "note", Event.chars "d"]

/-- Claim C4: after every prefix of a markup event stream in which note
closes never outnumber note opens (which SAX guarantees for a parsed
document), `in_note` is true iff `note_depth ≥ 1`; and in the concrete
open/open/close/close scenario only the token arriving after the second
close is emitted. -/
theorem c4_note_invariant :
    (∀ (P : Prims) (task : String) (es : List Event) (st : SweteLXX),
        run P (SweteLXX.init task) es = .ok st →
        (∀ n, ((es.take n).countP isNoteClose) ≤ ((es.take n).countP isNoteOpen)) →
        (st.in_note = true ↔ 1 ≤ st.note_depth))
    ∧ (run samplePrims (SweteLXX.init "convert") c4Events).map
        SweteLXX.out_lines = .ok ["0.0.0 d\n"] := by
  constructor
  · intro P task es st h hbal
    exact (note_aux P task es st h hbal).2
  · rfl

/-- Witness for C4 at a concrete balanced event stream. -/
theorem c4_note_invariant_witness :
    (SweteLXX.init "convert").in_note = true ↔
      1 ≤ (SweteLXX.init "convert").note_depth :=
  c4_note_invariant.1 samplePrims "convert"
    [Event.start "note" [], Event.close "note"] (SweteLXX.init "convert") rfl
    (by
      intro n
      rcases n with _ | _ | n
      · decide
      · decide
      · rw [List.take_of_length_le (by simp)]
        decide)

/-- Claim C7: the metacharacter filter removes every occurrence of each of
the four `FILTER_CHARS` (none remains in the result), the result does not
depend on the order in which the four characters are stripped, and
`"¶λόγος§"` yields `"λόγος"`. -/
theorem c7_filter_chars (t : String) (l : List Char)
    (hperm : l.Perm FILTER_CHARS) :
    (l.foldl pyDelete t = FILTER_CHARS.foldl pyDelete t)
    ∧ (∀ c ∈ FILTER_CHARS, c ∉ (FILTER_CHARS.foldl pyDelete t).data)
    ∧ FILTER_CHARS.foldl pyDelete "¶λόγος§" = "λόγος" := by
  refine ⟨?_, ?_, by decide⟩
  · rw [foldl_pyDelete, foldl_pyDelete]
    apply String.ext
    show List.filter _ t.data = List.filter _ t.data
    apply List.filter_congr
    intro x _
    simp [hperm.mem_iff]
  · intro c hc hmem
    rw [foldl_pyDelete] at hmem
    have h2 := (List.mem_filter.mp hmem).2
    simp only [decide_eq_true_eq] at h2
    exact h2 hc

/-- Witness for C7 at a permuted filter list and a concrete token. -/
theorem c7_filter_chars_witness :
    (['[', '¶', '§', ']'] : List Char).foldl pyDelete "¶λόγος§"
      = FILTER_CHARS.foldl pyDelete "¶λόγος§" :=
  (c7_filter_chars "¶λόγος§" ['[', '¶', '§', ']'] (by decide)).1

/-- Claim C8: the dedicated shim substitution replaces every occurrence of
GREEK ANO TELEIA (the ambiguous mid-dot variant) by MIDDLE DOT (its NFC
canonical form): no ano teleia remains, every occurrence becomes a middle
dot (counted exactly), and a token containing neither codepoint is
unchanged by the step. -/
theorem c8_ano_teleia_shim (t : String) :
    anoTeleia ∉ (pyReplace1 t anoTeleia middleDot).data
    ∧ (pyReplace1 t anoTeleia middleDot).data.count middleDot
        = t.data.count middleDot + t.data.count anoTeleia
    ∧ (anoTeleia ∉ t.data → middleDot ∉ t.data →
        pyReplace1 t anoTeleia middleDot = t) := by
  refine ⟨?_, count_map_shim t.data, ?_⟩
  · intro hmem
    rcases List.mem_map.mp hmem with ⟨a, _, hfa⟩
    by_cases hx : a = anoTeleia
    · rw [if_pos hx] at hfa
      exact absurd hfa (by decide)
    · rw [if_neg hx] at hfa
      exact hx hfa
  · intro h1 _
    apply String.ext
    show t.data.map _ = t.data
    rw [List.map_congr_left (g := id) ?_, List.map_id]
    intro a ha
    have : a ≠ anoTeleia := fun hh => h1 (hh ▸ ha)
    rw [if_neg this]
    rfl

/-- Witness for C8: a token containing neither codepoint is unchanged. -/
theorem c8_ano_teleia_shim_witness :
    pyReplace1 "αβ" anoTeleia middleDot = "αβ" :=
  (c8_ano_teleia_shim "αβ").2.2 (by decide) (by decide)

/-- Claim C10: a raw token that is exactly `"-"` stores the empty string in
the pending slot and emits nothing; because the empty string is falsy, the
next non-hyphen raw token is then processed unchanged (nothing prepended,
and the slot is not even cleared). -/
theorem c10_bare_hyphen (P : Prims) (st : SweteLXX) (t : String)
    (ht : strLast t ≠ some '-') :
    (SweteLXX.processToken P st "-" = { st with lb_token := some "" })
    ∧ (SweteLXX.processToken P { st with lb_token := some "" } t
        = SweteLXX.emitToken P { st with lb_token := some "" } t) := by
  constructor
  · rfl
  · unfold SweteLXX.processToken
    rw [if_neg ht]
    simp

/-- Witness for C10 at a concrete following token. -/
theorem c10_bare_hyphen_witness :
    (SweteLXX.processToken samplePrims (SweteLXX.init "compare") "-"
        = { SweteLXX.init "compare" with lb_token := some "" })
    ∧ (SweteLXX.processToken samplePrims
          { SweteLXX.init "compare" with lb_token := some "" } "x"
        = SweteLXX.emitToken samplePrims
            { SweteLXX.init "compare" with lb_token := some "" } "x") :=
  c10_bare_hyphen samplePrims (SweteLXX.init "compare") "x" (by decide)

/-- Claim C5: for consecutive in-scope raw tokens `t1` (hyphen-ending) and
`t2` (not hyphen-ending), `t1` alone emits nothing, and processing the pair
emits exactly what the filter/emit pipeline emits for the single token
`t1` minus its hyphen concatenated with `t2`; concretely, the raw sequence
`λόγο-`, `ς` delivered in two text runs separated by a marker event yields
the single emitted token `λόγος`. -/
theorem c5_hyphen_reassembly (P : Prims) (st : SweteLXX) (t1 t2 : String)
    (h1 : strLast t1 = some '-') (h2 : strLast t2 ≠ some '-') :
    ((SweteLXX.processToken P st t1).out_lines = st.out_lines)
    ∧ ((SweteLXX.processToken P (SweteLXX.processToken P st t1) t2).out_lines
        = (SweteLXX.emitToken P st (strDropLast t1 ++ t2)).out_lines)
    ∧ ((run samplePrims { SweteLXX.init "compare" with in_book := true }
          [Event.chars "λόγο-", Event.close "div", Event.chars "ς"]).map
        SweteLXX.out_lines = .ok ["λόγος"]) := by
  have hpt1 : SweteLXX.processToken P st t1
      = { st with lb_token := some (strDropLast t1) } := by
    unfold SweteLXX.processToken
    rw [if_pos h1]
  refine ⟨by rw [hpt1], ?_, rfl⟩
  rw [hpt1]
  unfold SweteLXX.processToken
  rw [if_neg h2]
  by_cases hlb : strDropLast t1 = ""
  · rw [hlb]
    simp only [ne_eq, not_true_eq_false, if_false, reduceCtorEq]
    rw [emitToken_eq, emitToken_eq]
    rfl
  · simp only [ne_eq, hlb, not_false_iff, if_true]
    rw [emitToken_eq, emitToken_eq]
    rfl

/-- Witness for C5 at the concrete raw tokens of the spec example. -/
theorem c5_hyphen_reassembly_witness :
    ((SweteLXX.processToken samplePrims (SweteLXX.init "compare")
        "λόγο-").out_lines = (SweteLXX.init "compare").out_lines)
    ∧ ((SweteLXX.processToken samplePrims
          (SweteLXX.processToken samplePrims (SweteLXX.init "compare")
            "λόγο-") "ς").out_lines
        = (SweteLXX.emitToken samplePrims (SweteLXX.init "compare")
            (strDropLast "λόγο-" ++ "ς")).out_lines)
    ∧ ((run samplePrims { SweteLXX.init "compare" with in_book := true }
          [Event.chars "λόγο-", Event.close "div", Event.chars "ς"]).map
        SweteLXX.out_lines = .ok ["λόγος"]) :=
  c5_hyphen_reassembly samplePrims (SweteLXX.init "compare") "λόγο-" "ς"
    (by decide) (by decide)

/-- Claim C6: at the punctuation stage in compare mode, a trailing mark is
split off iff the punctuation-stripped form of the token equals the token
minus its final character; when it is, the buffer receives `NFC(end_token)`
immediately followed by the unnormalized final character as its own entry,
with `end_token ++ punct_token = token`; otherwise the token is appended as
one (normalized) entry with no split. -/
theorem c6_trailing_punct (P : Prims) (st : SweteLXX) (t : String)
    (htask : st.task = "compare") (ht : t ≠ "") :
    (P.removePunctuation t = strDropLast t →
        (SweteLXX.emitNormalized P st t).out_lines
            = st.out_lines ++ [P.normalizeNFC (strDropLast t), strLastStr t]
          ∧ strDropLast t ++ strLastStr t = t)
    ∧ (P.removePunctuation t ≠ strDropLast t →
        (SweteLXX.emitNormalized P st t).out_lines
          = st.out_lines ++ [P.normalizeNFC t]) := by
  have hnil : t.data ≠ [] := by
    intro hh
    exact ht (String.ext hh)
  have hlast : ∃ c, t.data.getLast? = some c := by
    rcases List.getLast?_eq_getLast t.data hnil with h
    exact ⟨_, h⟩
  rcases hlast with ⟨c, hc⟩
  have hlaststr : strLastStr t = String.mk [c] := by
    unfold strLastStr
    rw [hc]
  have hne : strLastStr t ≠ "" := by
    rw [hlaststr]
    intro hh
    exact List.noConfusion (congrArg String.data hh)
  have hrecon : strDropLast t ++ strLastStr t = t := by
    rw [hlaststr]
    apply String.ext
    show t.data.dropLast ++ [c] = t.data
    have hgl : t.data.getLast hnil = c := by
      rw [List.getLast?_eq_getLast t.data hnil] at hc
      injection hc
    rw [← hgl]
    exact List.dropLast_append_getLast hnil
  constructor
  · intro hcond
    refine ⟨?_, hrecon⟩
    unfold SweteLXX.emitNormalized
    rw [if_pos hcond, htask]
    simp [hne, List.append_assoc]
  · intro hcond
    unfold SweteLXX.emitNormalized
    rw [if_neg hcond, htask]
    simp

/-- Witness for C6 at the concrete token of the spec example. -/
theorem c6_trailing_punct_witness :
    (SweteLXX.emitNormalized samplePrims (SweteLXX.init "compare")
          "λόγος.").out_lines
        = (SweteLXX.init "compare").out_lines ++
            [samplePrims.normalizeNFC (strDropLast "λόγος."), strLastStr "λόγος."]
      ∧ strDropLast "λόγος." ++ strLastStr "λόγος." = "λόγος." :=
  (c6_trailing_punct samplePrims (SweteLXX.init "compare") "λόγος." rfl
    (by decide)).1 (by decide)

/-- Claim C9: a token that is a single punctuation character (its
punctuation-stripped form is empty, which equals the token minus its last
character) makes compare mode append the empty-string entry followed by the
punctuation character — the empty end token is appended, not discarded. -/
theorem c9_lone_punct (P : Prims) (st : SweteLXX) (c : Char)
    (htask : st.task = "compare")
    (hp : P.removePunctuation (String.mk [c]) = "")
    (hn : P.normalizeNFC "" = "") :
    (SweteLXX.emitNormalized P st (String.mk [c])).out_lines
      = st.out_lines ++ ["", String.mk [c]] := by
  have hcond : P.removePunctuation (String.mk [c])
      = strDropLast (String.mk [c]) := by
    rw [hp]
    rfl
  unfold SweteLXX.emitNormalized
  rw [if_pos hcond, htask]
  have hlast : strLastStr (String.mk [c]) = String.mk [c] := rfl
  have hne : (String.mk [c] : String) ≠ "" := by
    intro hh
    exact List.noConfusion (congrArg String.data hh)
  simp [hne, hlast, List.append_assoc,
    show strDropLast (String.mk [c]) = "" from rfl, hn]

/-- Witness for C9 at a concrete lone full stop. -/
theorem c9_lone_punct_witness :
    (SweteLXX.emitNormalized samplePrims (SweteLXX.init "compare")
        (String.mk ['.'])).out_lines
      = (SweteLXX.init "compare").out_lines ++ ["", String.mk ['.']] :=
  c9_lone_punct samplePrims (SweteLXX.init "compare") '.' rfl (by decide) rfl

/-- The minimal document of the end-to-end scenario, up to the body text:
identifier run with book code `027` at positions 11..13, one chapter
division `n="1"`, one verse division `n="1"`. -/
def c1Opening : List Event :=
  [Event.start "idno" [], Event.chars "tlg0527.tlg027.xml",
   Event.close "idno", Event.start "text" [],
   Event.start "div" [("subtype", "chapter"), ("n", "1")],
   Event.start "div" [("subtype", "verse"), ("n", "1")]]

/-- The full minimal document: the prefix followed by the body text run. -/
def c1Events : List Event := c1Opening ++ [Event.chars "λόγος."]

/-- The parse context after the scenario prefix. -/
def c1State (task : String) : SweteLXX :=
  { SweteLXX.init task with
      in_book := true,
      current_book := 27,
      current_chapter := "1",
      current_verse := "1" }

/-- Claim C1: for the minimal document (book code `027` at the fixed
offset, chapter `1`, verse `1`, body text `λόγος.`) and any primitives
agreeing with NFC and punctuation removal on the involved strings, convert
mode produces exactly the single entry `27.1.1 λόγος.\n` (book as a plain
integer, token NFC-normalized with the trailing full stop kept), and
compare mode produces exactly the two entries `λόγος` and `.`. -/
theorem c1_end_to_end (P : Prims)
    (hp : P.removePunctuation "λόγος." = "λόγος")
    (hn1 : P.normalizeNFC "λόγος." = "λόγος.")
    (hn2 : P.normalizeNFC "λόγος" = "λόγος") :
    ((run P (SweteLXX.init "convert") c1Events).map SweteLXX.out_lines
        = .ok ["27.1.1 λόγος.\n"])
    ∧ ((run P (SweteLXX.init "compare") c1Events).map SweteLXX.out_lines
        = .ok ["λόγος", "."]) := by
  have key : ∀ task, run P (SweteLXX.init task) c1Events
      = .ok (SweteLXX.emitNormalized P (c1State task) "λόγος.") := by
    intro task
    show run P (SweteLXX.init task) (c1Opening ++ [Event.chars "λόγος."]) = _
    rw [run_append]
    have hpre : run P (SweteLXX.init task) c1Opening = .ok (c1State task) := rfl
    rw [hpre]
    have hch : SweteLXX.characters P (c1State task) "λόγος."
        = .ok (SweteLXX.emitNormalized P (c1State task) "λόγος.") := rfl
    simp only [run, step, hch]
  have hcond : P.removePunctuation "λόγος." = strDropLast "λόγος." := by
    rw [hp]
    rfl
  constructor
  · rw [key "convert", emitNormalized_eq]
    show Except.ok _ = _
    congr 1
    show ([] : List String) ++ emitEntries P "convert" "27" "1" "1" "λόγος." = _
    unfold emitEntries
    simp [OUTLINE, hn1]
  · rw [key "compare", emitNormalized_eq]
    show Except.ok _ = _
    congr 1
    show ([] : List String) ++ emitEntries P "compare" "27" "1" "1" "λόγος." = _
    unfold emitEntries
    rw [if_pos hcond]
    simp [show strDropLast "λόγος." = "λόγος" from rfl,
      show strLastStr "λόγος." = "." from rfl, hn2]

/-- Witness for C1 at the sample primitives. -/
theorem c1_end_to_end_witness :
    ((run samplePrims (SweteLXX.init "convert") c1Events).map
        SweteLXX.out_lines = .ok ["27.1.1 λόγος.\n"])
    ∧ ((run samplePrims (SweteLXX.init "compare") c1Events).map
        SweteLXX.out_lines = .ok ["λόγος", "."]) :=
  c1_end_to_end samplePrims (by decide) rfl rfl

end Swete
